import Mathlib

/-!
Shallow embedding of the enemy AI engine (`src/ai_engine.py`, `src/enemy.py`)
of the Cecils_Big_Game repository, together with theorems settling the frozen
claims about it.

Modelling conventions:
* Python floats are modelled by real numbers (`ℝ`); none of the claims under
  consideration depends on IEEE rounding behaviour.
* Rule conditions and actions are opaque Python closures over the shared
  enemy object.  During one `update` call each condition closure evaluates to
  a fixed boolean or raises; this is modelled by storing the tick's outcome
  (`COutcome`) in the rule, and identifying each action closure by a numeric
  label.  Executed actions are recorded in an explicit trace (a ghost
  observation of the side effects the Python code performs).
* `numpy` matrices are modelled as functions `Fin m → Fin n → ℝ`.
-/

/-- Outcome of calling a Python condition closure this tick: it either
returns a boolean or raises an exception. -/
inductive COutcome where
  | ok (b : Bool)
  | err
deriving DecidableEq, Repr

/-- One entry of `RuleBasedAI.rules` (`ai_engine.py` lines 45-51):
`{'id': rule_id, 'condition': ..., 'action': ..., 'priority': priority}`.
`cond` is the outcome of the condition closure for the current tick, `act`
labels the action closure, `actRaises` records whether the action closure
raises when invoked. -/
structure Rule where
  id : ℕ
  priority : ℤ
  cond : COutcome
  act : ℕ
  actRaises : Bool
deriving DecidableEq, Repr

/-- Stable insertion of a rule into a list already sorted by descending
priority: the rule goes in front of the first entry whose priority does not
exceed its own. -/
def insertDesc (r : Rule) : List Rule → List Rule
  | [] => [r]
  | x :: xs => if x.priority ≤ r.priority then r :: x :: xs else x :: insertDesc r xs

/-- `sorted(self.rules, key=lambda r: r['priority'], reverse=True)`
(`ai_engine.py` line 82): Python's `sorted` is a stable descending sort by
priority, realised here as a stable insertion sort. -/
def sortRulesDesc : List Rule → List Rule
  | [] => []
  | x :: xs => insertDesc x (sortRulesDesc xs)

/-- The scan loop of `RuleBasedAI.update` (`ai_engine.py` lines 85-94):
for each rule in sorted order, evaluate the condition inside `try`; a raised
exception (from the condition or the action) is caught and the loop
continues with the next rule; the first rule whose condition is true has its
action invoked, and if that invocation returns normally the loop returns
`True`.  The second component is the trace of invoked action labels. -/
def scanRules : List Rule → Bool × List ℕ
  | [] => (false, [])
  | r :: rs =>
    match r.cond with
    | .err => scanRules rs
    | .ok false => scanRules rs
    | .ok true =>
      if r.actRaises then
        let rest := scanRules rs
        (rest.1, r.act :: rest.2)
      else (true, [r.act])

/-- `RuleBasedAI.update(player, level)` (`ai_engine.py` lines 70-94).  The
`player`/`level` arguments are not read by the method body (the closures
consult the enemy directly), so they do not appear here.  Returns the boolean
result together with the trace of invoked action labels. -/
def updateRules (rules : List Rule) : Bool × List ℕ :=
  scanRules (sortRulesDesc rules)

/-- Evaluation precedence between two rules: higher priority first, ties
broken by lower id (= earlier insertion, since `add_rule` assigns ids in
insertion order). -/
def evalBefore (a b : Rule) : Prop :=
  b.priority < a.priority ∨ (a.priority = b.priority ∧ a.id < b.id)

instance (a b : Rule) : Decidable (evalBefore a b) := by
  unfold evalBefore; infer_instance

/-- Action label standing for the closure `lambda: self.enemy.chase_mode()`. -/
def chaseActId : ℕ := 0

/-- Action label standing for the closure `lambda: self.enemy.patrol()`. -/
def patrolActId : ℕ := 1

/-- The two rules installed by `RuleBasedAI.add_default_patrol_ai`
(`ai_engine.py` lines 54-68), given the tick's outcome `see` of the shared
perception query `can_see_player(range=200)`: rule 0 (priority 10) chases
when the player is seen, rule 1 (priority 5) patrols when it is not. -/
def defaultRules (see : Bool) : List Rule :=
  [ { id := 0, priority := 10, cond := .ok see, act := chaseActId, actRaises := false },
    { id := 1, priority := 5, cond := .ok (!see), act := patrolActId, actRaises := false } ]

/-- A node of `BehaviorTree` (`ai_engine.py` lines 100-142): a dict tagged by
`NodeType`, with a child list for SEQUENCE/SELECTOR, an optional condition
closure for CONDITION (absent key defaults to `lambda: False`) and an
optional action closure for ACTION (absent key defaults to `lambda: None`).
An action closure is modelled by its label plus whether it raises. -/
inductive BTNode where
  | sequence (children : List BTNode)
  | selector (children : List BTNode)
  | condition (pred : Option COutcome)
  | action (eff : Option (ℕ × Bool))

mutual

/-- `BehaviorTree._execute_node` (`ai_engine.py` lines 150-178).  The whole
node body runs inside `try`; an exception raised by this node's own closure
is caught here and the node reports `False`; a child node's exception is
caught by the child's own recursive `_execute_node` call, so it never reaches
the parent.  The second component is the trace of invoked action labels. -/
def execNode : BTNode → Bool × List ℕ
  | .sequence cs => execSeq cs
  | .selector cs => execSel cs
  | .condition p =>
    match p with
    | none => (false, [])
    | some (.ok b) => (b, [])
    | some .err => (false, [])
  | .action e =>
    match e with
    | none => (true, [])
    | some (i, raises) => if raises then (false, [i]) else (true, [i])

/-- The SEQUENCE branch of `_execute_node`: children run in order, the first
failing child stops the walk with `False`; all succeeding yields `True`. -/
def execSeq : List BTNode → Bool × List ℕ
  | [] => (true, [])
  | c :: cs =>
    let r := execNode c
    if r.1 then
      let rest := execSeq cs
      (rest.1, r.2 ++ rest.2)
    else (false, r.2)

/-- The SELECTOR branch of `_execute_node`: children run in order, the first
succeeding child stops the walk with `True`; all failing yields `False`. -/
def execSel : List BTNode → Bool × List ℕ
  | [] => (false, [])
  | c :: cs =>
    let r := execNode c
    if r.1 then (true, r.2)
    else
      let rest := execSel cs
      (rest.1, r.2 ++ rest.2)

end

/-- `BehaviorTree.execute` (`ai_engine.py` lines 144-148): run the root if
one is set, otherwise return `False`. -/
def treeExecute (root : Option BTNode) : Bool × List ℕ :=
  match root with
  | none => (false, [])
  | some n => execNode n

/-- The tree built by `BehaviorTree.create_patrol_and_chase_tree`
(`ai_engine.py` lines 116-142), with `see` the tick's outcome of the
`can_see_player(range=200)` condition closure. -/
def defaultTree (see : Bool) : BTNode :=
  .selector
    [ .sequence
        [ .condition (some (.ok see)),
          .action (some (chaseActId, false)) ],
      .action (some (patrolActId, false)) ]

open scoped Classical

/-- Read-only view of the player used by the AI core: position only
(`enemy.py` reads `player.x`, `player.y`). -/
structure Player where
  x : ℝ
  y : ℝ

/-- The AI-relevant state of `Enemy` (`enemy.py` lines 27-58).  Rendering
fields (sprite, rect, animation counters) are omitted; `lastPlayer` models
the `_last_player` reference, which `__init__` initialises to `None` and
`Enemy.update` overwrites with the player argument each tick. -/
structure Enemy where
  x : ℝ
  y : ℝ
  velocity_x : ℝ
  velocity_y : ℝ
  speed : ℝ
  start_x : ℝ
  start_y : ℝ
  patrol_range : ℝ
  patrol_direction : ℝ
  health : ℝ
  on_ground : Bool
  aiType : String
  lastPlayer : Option Player

/-- `Enemy.patrol_horizontal` (`enemy.py` lines 97-104). -/
noncomputable def patrolHorizontal (e : Enemy) : Enemy :=
  let e1 := { e with velocity_x := e.speed * e.patrol_direction }
  if |e1.x - e1.start_x| > e1.patrol_range then
    let e2 := { e1 with patrol_direction := -e1.patrol_direction }
    { e2 with velocity_x := e2.speed * e2.patrol_direction }
  else e1

/-- `Enemy.patrol` (`enemy.py` lines 134-136), an alias of
`patrol_horizontal`. -/
noncomputable def patrol (e : Enemy) : Enemy :=
  patrolHorizontal e

/-- `Enemy.chase_player` (`enemy.py` lines 115-132). -/
noncomputable def chasePlayer (e : Enemy) (p : Player) : Enemy :=
  let dx := p.x - e.x
  let dy := p.y - e.y
  let distance := Real.sqrt (dx ^ 2 + dy ^ 2)
  if distance < 200 then
    if distance > 0 then
      { e with velocity_x := dx / distance * e.speed,
               velocity_y := dy / distance * (e.speed * 0.5) }
    else e
  else { e with aiType := "patrol", velocity_x := 0, velocity_y := 0 }

/-- `Enemy.chase_mode` (`enemy.py` lines 138-142): `hasattr(self,
'_last_player')` is always true since `__init__` sets the attribute, so the
only guard left is the truthiness of the stored reference (`None` is falsy,
a player object is truthy). -/
noncomputable def chaseMode (e : Enemy) : Enemy :=
  match e.lastPlayer with
  | none => e
  | some p => chasePlayer e p

/-- `Enemy.can_see_player` (`enemy.py` lines 144-170).  The `player`
parameter of the Python method is ignored (the body reassigns it from
`self._last_player`); the `hasattr` guard is always true, so the result is
`False` when no player reference is cached and otherwise compares the
Euclidean distance with `range`. -/
noncomputable def canSeePlayer (e : Enemy) (range : ℝ) : Bool :=
  match e.lastPlayer with
  | none => false
  | some p =>
    decide (Real.sqrt ((p.x - e.x) ^ 2 + (p.y - e.y) ^ 2) < range)

/-- `Enemy.jump` (`enemy.py` lines 172-176). -/
def jump (e : Enemy) : Enemy :=
  if e.on_ground then { e with velocity_y := -10, on_ground := false } else e

/-- `Enemy.attack` (`enemy.py` lines 178-181): the body is `pass`. -/
def attack (e : Enemy) : Enemy := e

/-- The fixed learning rate `self.learning_rate = 0.01` of `SimpleNeuralNet`
(`ai_engine.py` line 203); it is set at construction and never changed. -/
noncomputable def learningRate : ℝ := 0.01

/-- Parameters of `SimpleNeuralNet` (`ai_engine.py` lines 193-201): weight
matrices `w1 : input×hidden`, `w2 : hidden×output` and the bias rows `b1`,
`b2` (numpy shape `(1, n)`, modelled as a vector). -/
structure Net (ni nh no : ℕ) where
  w1 : Matrix (Fin ni) (Fin nh) ℝ
  b1 : Fin nh → ℝ
  w2 : Matrix (Fin nh) (Fin no) ℝ
  b2 : Fin no → ℝ

/-- The sigmoid `1 / (1 + np.exp(-z))` used on the output layer
(`ai_engine.py` line 210). -/
noncomputable def sigmoid (x : ℝ) : ℝ :=
  1 / (1 + Real.exp (-x))

/-- `self.z1 = np.dot(x, self.w1) + self.b1` (`ai_engine.py` line 207);
`b1` broadcasts over the batch rows. -/
noncomputable def forwardZ1 {m ni nh no : ℕ} (net : Net ni nh no)
    (x : Matrix (Fin m) (Fin ni) ℝ) : Matrix (Fin m) (Fin nh) ℝ :=
  fun i j => (∑ k, x i k * net.w1 k j) + net.b1 j

/-- `self.a1 = np.tanh(self.z1)` (`ai_engine.py` line 208). -/
noncomputable def forwardA1 {m ni nh no : ℕ} (net : Net ni nh no)
    (x : Matrix (Fin m) (Fin ni) ℝ) : Matrix (Fin m) (Fin nh) ℝ :=
  fun i j => Real.tanh (forwardZ1 net x i j)

/-- `self.z2 = np.dot(self.a1, self.w2) + self.b2` (`ai_engine.py` line 209),
as a function of the hidden activation `self.a1`. -/
noncomputable def forwardZ2 {m ni nh no : ℕ} (net : Net ni nh no)
    (a1 : Matrix (Fin m) (Fin nh) ℝ) : Matrix (Fin m) (Fin no) ℝ :=
  fun i j => (∑ k, a1 i k * net.w2 k j) + net.b2 j

/-- `SimpleNeuralNet.forward` (`ai_engine.py` lines 205-211): the returned
activation `self.a2`. -/
noncomputable def forwardOut {m ni nh no : ℕ} (net : Net ni nh no)
    (x : Matrix (Fin m) (Fin ni) ℝ) : Matrix (Fin m) (Fin no) ℝ :=
  fun i j => sigmoid (forwardZ2 net (forwardA1 net x) i j)

/-- `SimpleNeuralNet.backward(x, y, output)` (`ai_engine.py` lines 213-232).
`a1` is the cached hidden activation `self.a1` from the preceding forward
pass (callers pass `forwardA1 net x`).  Mirroring the source line by line:
`dz2 = output * (1 - output)`; `dw2 = a1.T @ dz2 / m`; `db2 = colsum dz2 / m`;
`da1 = dz2 @ w2.T`; `dz1 = da1 * (1 - a1 * a1)`; `dw1 = x.T @ dz1 / m`;
`db1 = colsum dz1 / m`; then gradient-descent updates with the fixed
learning rate.  Note that the parameter `y` (the target matrix) does not
occur anywhere in the source body. -/
noncomputable def backward {m ni nh no : ℕ} (net : Net ni nh no)
    (x : Matrix (Fin m) (Fin ni) ℝ) (y : Matrix (Fin m) (Fin no) ℝ)
    (output : Matrix (Fin m) (Fin no) ℝ) (a1 : Matrix (Fin m) (Fin nh) ℝ) :
    Net ni nh no :=
  let dz2 : Matrix (Fin m) (Fin no) ℝ := fun i j => output i j * (1 - output i j)
  let dw2 : Matrix (Fin nh) (Fin no) ℝ := fun k j => (∑ i, a1 i k * dz2 i j) / m
  let db2 : Fin no → ℝ := fun j => (∑ i, dz2 i j) / m
  let da1 : Matrix (Fin m) (Fin nh) ℝ := fun i k => ∑ j, dz2 i j * net.w2 k j
  let dz1 : Matrix (Fin m) (Fin nh) ℝ := fun i k => da1 i k * (1 - a1 i k * a1 i k)
  let dw1 : Matrix (Fin ni) (Fin nh) ℝ := fun k' k => (∑ i, x i k' * dz1 i k) / m
  let db1 : Fin nh → ℝ := fun k => (∑ i, dz1 i k) / m
  { w1 := fun a b => net.w1 a b - learningRate * dw1 a b,
    b1 := fun b => net.b1 b - learningRate * db1 b,
    w2 := fun a b => net.w2 a b - learningRate * dw2 a b,
    b2 := fun b => net.b2 b - learningRate * db2 b }

/-- `MachineLearningAI.get_state` (`ai_engine.py` lines 255-275): the
6-feature vector.  `hasattr(self.enemy, 'on_ground')` is always true for
`Enemy`, so the 0.5 fallback branch is dead for this agent and the feature is
the boolean cast of `on_ground`. -/
noncomputable def getState (e : Enemy) (p : Player) : Fin 6 → ℝ :=
  ![ min |e.x - p.x| 500 / 500,
     if canSeePlayer e 200 then 1 else 0,
     e.health / 3,
     if e.on_ground then 1 else 0,
     if p.y < e.y then 1 else 0,
     if p.y > e.y then 1 else 0 ]

/-- One entry of `self.experience_buffer` (`ai_engine.py` lines 305-311). -/
structure ExpRecord where
  state : Fin 6 → ℝ
  action : ℕ
  reward : ℝ
  nextState : Fin 6 → ℝ
  done : Bool

/-- The persistent state of `MachineLearningAI` (`ai_engine.py` lines
242-253): the 6-8-4 network, the experience buffer, and the
`training_sessions` counter. -/
structure MLState where
  net : Net 6 8 4
  buffer : List ExpRecord
  sessions : ℕ

/-- Row `i` of the batch matrix
`np_array([exp['state'].flatten() for exp in buffer])`
(`ai_engine.py` line 324). -/
noncomputable def statesMatrix (buf : List ExpRecord) :
    Matrix (Fin buf.length) (Fin 6) ℝ :=
  fun i j => (buf.get i).state j

/-- The target matrix of `MachineLearningAI.train` (`ai_engine.py` lines
331-334): a copy of the network output in which, for each record, the
column of the action taken is overwritten with that record's reward. -/
noncomputable def targetMatrix (buf : List ExpRecord)
    (output : Matrix (Fin buf.length) (Fin 4) ℝ) :
    Matrix (Fin buf.length) (Fin 4) ℝ :=
  fun i j => if j.val = (buf.get i).action then (buf.get i).reward else output i j

/-- `MachineLearningAI.train` (`ai_engine.py` lines 318-338): empty buffer is
a silent no-op; otherwise forward-pass the batch of stored states, build the
reward-overwritten target, run `backward` (whose cached `self.a1` is the
hidden activation of this forward pass), and increment `training_sessions`.
The buffer itself is untouched here (the caller clears it). -/
noncomputable def train (ml : MLState) : MLState :=
  if ml.buffer.isEmpty then ml
  else
    let states := statesMatrix ml.buffer
    let output := forwardOut ml.net states
    let target := targetMatrix ml.buffer output
    { ml with net := backward ml.net states target output (forwardA1 ml.net states),
              sessions := ml.sessions + 1 }

/-- `MachineLearningAI.remember_experience` (`ai_engine.py` lines 303-316):
append the record, and once the buffer holds at least 10 records run a
training pass and clear it. -/
noncomputable def rememberExperience (ml : MLState) (r : ExpRecord) : MLState :=
  let ml1 := { ml with buffer := ml.buffer ++ [r] }
  if 10 ≤ ml1.buffer.length then
    let ml2 := train ml1
    { ml2 with buffer := [] }
  else ml1

/-- The inner loop of `np.argmax` over a row: keep the first index attaining
the running maximum (`bi`/`bv` are the best index and value so far, `i` the
index of the head of the remaining list); a later value replaces the best
only when strictly greater. -/
noncomputable def npArgmaxGo (bi : ℕ) (bv : ℝ) (i : ℕ) : List ℝ → ℕ
  | [] => bi
  | v :: vs => if bv < v then npArgmaxGo i v (i + 1) vs else npArgmaxGo bi bv (i + 1) vs

/-- `np.argmax` over one row: index of the first occurrence of the maximum
(the empty case is unreachable from `predict`, which always passes the 4
output columns). -/
noncomputable def npArgmax : List ℝ → ℕ
  | [] => 0
  | v :: vs => npArgmaxGo 0 v 1 vs

/-- The 4 output activations of the network on the single-row batch built
from state `s`, listed in column order; `SimpleNeuralNet.predict`
(`ai_engine.py` lines 234-236) takes the argmax of this row. -/
noncomputable def outputsList (net : Net 6 8 4) (s : Fin 6 → ℝ) : List ℝ :=
  (List.finRange 4).map (fun j => forwardOut net (fun (_ : Fin 1) k => s k) 0 j)

/-- `MachineLearningAI.choose_action` (`ai_engine.py` lines 277-290):
`self.net.predict(self.get_state(player, level))[0]`. -/
noncomputable def chooseAction (net : Net 6 8 4) (e : Enemy) (p : Player) : ℕ :=
  npArgmax (outputsList net (getState e p))

/-- `MachineLearningAI.execute_action` (`ai_engine.py` lines 292-301):
dispatch on the action index (0=patrol, 1=chase, 2=jump, 3=attack; `Enemy`
has both `jump` and `attack`, so the `hasattr` guards pass).  The second
component is the trace of performed action indices; any other index performs
nothing. -/
noncomputable def executeAction (e : Enemy) (a : ℕ) : Enemy × List ℕ :=
  match a with
  | 0 => (patrol e, [0])
  | 1 => (chaseMode e, [1])
  | 2 => (jump e, [2])
  | 3 => (attack e, [3])
  | _ => (e, [])

/-- The enemy as mutated by the chosen action inside
`MachineLearningAI.update` (`ai_engine.py` lines 342-343). -/
noncomputable def mlPostEnemy (net : Net 6 8 4) (e : Enemy) (p : Player) : Enemy :=
  (executeAction e (chooseAction net e p)).1

/-- The reward of `MachineLearningAI.update` (`ai_engine.py` lines 346-347):
computed from the horizontal distance after the action executed. -/
noncomputable def mlReward (net : Net 6 8 4) (e : Enemy) (p : Player) : ℝ :=
  if |(mlPostEnemy net e p).x - p.x| < 100 then 1 else -0.1

/-- The experience record passed to `remember_experience` by
`MachineLearningAI.update` (`ai_engine.py` lines 349-350): both the `state`
argument and `next_state` are fresh `get_state(player, level)` calls made
after the action executed, and the terminal flag is the literal `False`. -/
noncomputable def mlRecord (net : Net 6 8 4) (e : Enemy) (p : Player) : ExpRecord :=
  { state := getState (mlPostEnemy net e p) p,
    action := chooseAction net e p,
    reward := mlReward net e p,
    nextState := getState (mlPostEnemy net e p) p,
    done := false }

/-- `MachineLearningAI.update` (`ai_engine.py` lines 340-352): choose an
action by greedy argmax, execute it, record the experience, return `True`.
Result: (new ML state, mutated enemy, trace of performed actions, returned
boolean). -/
noncomputable def mlUpdate (ml : MLState) (e : Enemy) (p : Player) :
    MLState × Enemy × List ℕ × Bool :=
  let a := chooseAction ml.net e p
  let step := executeAction e a
  (rememberExperience ml (mlRecord ml.net e p), step.1, step.2, true)

/-- The `AIType` enum (`ai_engine.py` lines 14-19). -/
inductive AIType where
  | RULE_BASED
  | MACHINE_LEARNING
  | BEHAVIOR_TREE
  | SCRIPTED
deriving DecidableEq, Repr

/-- A Python value stored in `self.ai_type`: either one of the four enum
members or anything else (`set_ai_type` does not validate its argument, and
`AIEngine.update` falls through to `return False` for such a value). -/
inductive PyTag where
  | known (t : AIType)
  | other
deriving DecidableEq, Repr

/-- The state of `AIEngine` (`ai_engine.py` lines 358-374): the active tag
and one instance of each strategy.  The rule list and tree carry the
tick-outcome model of their closures; the shared enemy object is threaded
through `engineUpdate` explicitly. -/
structure EngineState where
  tag : PyTag
  rules : List Rule
  root : Option BTNode
  ml : MLState

/-- `AIEngine.set_ai_type` (`ai_engine.py` lines 376-378). -/
def setAIType (st : EngineState) (t : PyTag) : EngineState :=
  { st with tag := t }

/-- `AIEngine.update` (`ai_engine.py` lines 380-404): forward to the
strategy selected by the current tag (`SCRIPTED` forwards to the rule-based
strategy); any other value reaches the final `return False`.  Result:
(returned boolean, engine state, enemy, trace of invoked action labels). -/
noncomputable def engineUpdate (st : EngineState) (e : Enemy) (p : Player) :
    Bool × EngineState × Enemy × List ℕ :=
  match st.tag with
  | .known .RULE_BASED => ((updateRules st.rules).1, st, e, (updateRules st.rules).2)
  | .known .BEHAVIOR_TREE => ((treeExecute st.root).1, st, e, (treeExecute st.root).2)
  | .known .MACHINE_LEARNING =>
    let r := mlUpdate st.ml e p
    (r.2.2.2, { st with ml := r.1 }, r.2.1, r.2.2.1)
  | .known .SCRIPTED => ((updateRules st.rules).1, st, e, (updateRules st.rules).2)
  | .other => (false, st, e, [])

/-- A concrete three-rule list with a priority tie between ids 1 and 2. -/
def demoRules : List Rule :=
  [ { id := 0, priority := 5, cond := .ok false, act := 3, actRaises := false },
    { id := 1, priority := 10, cond := .ok true, act := 4, actRaises := false },
    { id := 2, priority := 10, cond := .ok true, act := 5, actRaises := false } ]

/-- A concrete rule list in which every condition raises. -/
def demoErrRules : List Rule :=
  [ { id := 0, priority := 7, cond := .err, act := 3, actRaises := false },
    { id := 1, priority := 2, cond := .err, act := 4, actRaises := false } ]

/-- A concrete network: zero weights and biases except an output bias that
favours column 2 (the jump action). -/
noncomputable def net0 : Net 6 8 4 :=
  { w1 := fun _ _ => 0, b1 := fun _ => 0, w2 := fun _ _ => 0, b2 := ![0, 0, 1, 0] }

/-- A concrete player position. -/
noncomputable def playerDemo : Player := { x := 50, y := 0 }

/-- A concrete enemy that stands on the ground and has the player reference
cached (as `Enemy.update` does before invoking the AI engine). -/
noncomputable def enemyDemo : Enemy :=
  { x := 0, y := 0, velocity_x := 0, velocity_y := 0, speed := 2,
    start_x := 0, start_y := 0, patrol_range := 150, patrol_direction := 1,
    health := 1, on_ground := true, aiType := "patrol",
    lastPlayer := some playerDemo }

/-- A concrete enemy on which no player reference has ever been cached. -/
noncomputable def enemyNP : Enemy :=
  { x := 0, y := 0, velocity_x := 0, velocity_y := 0, speed := 2,
    start_x := 0, start_y := 0, patrol_range := 150, patrol_direction := 1,
    health := 1, on_ground := true, aiType := "patrol", lastPlayer := none }

/-- A concrete ML strategy state with an empty experience buffer. -/
noncomputable def mlDemo : MLState := { net := net0, buffer := [], sessions := 0 }

/-- A concrete experience record. -/
noncomputable def recDemo : ExpRecord :=
  { state := fun _ => 0, action := 0, reward := 1, nextState := fun _ => 0, done := false }

/-- A concrete ML strategy state with one buffered record. -/
noncomputable def mlDemo1 : MLState := { net := net0, buffer := [recDemo], sessions := 0 }

/-- A concrete single-row input batch (all-zero features). -/
noncomputable def xDemo : Matrix (Fin 1) (Fin 6) ℝ := fun _ _ => 0

/-- A concrete network output row. -/
noncomputable def outDemo : Matrix (Fin 1) (Fin 4) ℝ := fun _ _ => 1 / 2

/-- A concrete cached hidden activation row. -/
noncomputable def a1Demo : Matrix (Fin 1) (Fin 8) ℝ := fun _ _ => 0

/-- A target row crediting output unit 0 with reward `1.0`. -/
noncomputable def target1Demo : Matrix (Fin 1) (Fin 4) ℝ :=
  fun _ j => if j.val = 0 then 1 else 1 / 2

/-- A target row crediting output unit 3 with reward `-0.1`. -/
noncomputable def target2Demo : Matrix (Fin 1) (Fin 4) ℝ :=
  fun _ j => if j.val = 3 then -0.1 else 1 / 2

/-- A concrete dispatcher state holding one instance of each strategy. -/
noncomputable def engineDemo : EngineState :=
  { tag := .known .RULE_BASED, rules := demoRules,
    root := some (defaultTree true), ml := mlDemo }

/-- One unfolding step of `npArgmaxGo` on a nonempty list. -/
theorem npArgmaxGo_cons (bi : ℕ) (bv : ℝ) (i : ℕ) (v : ℝ) (vs : List ℝ) :
    npArgmaxGo bi bv i (v :: vs) =
      if bv < v then npArgmaxGo i v (i + 1) vs else npArgmaxGo bi bv (i + 1) vs := rfl

theorem insertDesc_perm (r : Rule) : ∀ l : List Rule, (insertDesc r l).Perm (r :: l)
  | [] => List.Perm.refl _
  | x :: xs => by
    simp only [insertDesc]
    split
    · exact List.Perm.refl _
    · exact ((insertDesc_perm r xs).cons x).trans (List.Perm.swap r x xs)

theorem sortRulesDesc_perm : ∀ l : List Rule, (sortRulesDesc l).Perm l
  | [] => List.Perm.refl _
  | x :: xs => (insertDesc_perm x (sortRulesDesc xs)).trans ((sortRulesDesc_perm xs).cons x)

theorem insertDesc_pairwise :
    ∀ {l : List Rule} (r : Rule), l.Pairwise evalBefore → (∀ x ∈ l, r.id < x.id) →
      (insertDesc r l).Pairwise evalBefore := by
  intro l
  induction l with
  | nil =>
    intro r _ _
    simp [insertDesc]
  | cons x xs ih =>
    intro r hp hid
    simp only [insertDesc]
    rcases List.pairwise_cons.mp hp with ⟨hx, hxs⟩
    by_cases hpri : x.priority ≤ r.priority
    · rw [if_pos hpri]
      refine List.pairwise_cons.mpr ⟨?_, hp⟩
      intro z hz
      have hidz : r.id < z.id := hid z hz
      rcases List.mem_cons.mp hz with hzx | hzxs
      · subst hzx
        unfold evalBefore
        omega
      · have := hx z hzxs
        unfold evalBefore at this ⊢
        omega
    · rw [if_neg hpri]
      push_neg at hpri
      refine List.pairwise_cons.mpr ⟨?_, ih r hxs (fun z hz => hid z (List.mem_cons_of_mem _ hz))⟩
      intro z hz
      have hz' : z = r ∨ z ∈ xs := by
        have := (insertDesc_perm r xs).mem_iff.mp hz
        simpa using this
      rcases hz' with hzr | hzxs
      · subst hzr
        exact Or.inl hpri
      · exact hx z hzxs

theorem sortRulesDesc_pairwise :
    ∀ {l : List Rule}, l.Pairwise (fun a b => a.id < b.id) →
      (sortRulesDesc l).Pairwise evalBefore := by
  intro l
  induction l with
  | nil => intro _; simp [sortRulesDesc]
  | cons x xs ih =>
    intro h
    rcases List.pairwise_cons.mp h with ⟨hx, hxs⟩
    simp only [sortRulesDesc]
    exact insertDesc_pairwise x (ih hxs)
      (fun z hz => hx z ((sortRulesDesc_perm xs).subset hz))

theorem scanRules_spec :
    ∀ l : List Rule, l.Pairwise evalBefore → (∀ r ∈ l, r.actRaises = false) →
      ((scanRules l).1 = true ↔ ∃ r ∈ l, r.cond = .ok true) ∧
      ((scanRules l).1 = false → (scanRules l).2 = []) ∧
      ((scanRules l).1 = true →
        ∃ f ∈ l, f.cond = .ok true ∧
          (∀ r ∈ l, r.cond = .ok true → r = f ∨ evalBefore f r) ∧
          (scanRules l).2 = [f.act]) := by
  intro l
  induction l with
  | nil =>
    intro _ _
    refine ⟨by simp [scanRules], by simp [scanRules], by simp [scanRules]⟩
  | cons r rs ih =>
    intro hp hA
    rcases List.pairwise_cons.mp hp with ⟨hr, hrs⟩
    have ihs := ih hrs (fun z hz => hA z (List.mem_cons_of_mem _ hz))
    rcases hc : r.cond with b | _
    · cases b with
      | true =>
        have hra : r.actRaises = false := hA r (List.mem_cons_self _ _)
        have hscan : scanRules (r :: rs) = (true, [r.act]) := by
          simp [scanRules, hc, hra]
        rw [hscan]
        refine ⟨⟨fun _ => ⟨r, List.mem_cons_self _ _, hc⟩, fun _ => rfl⟩, by simp, ?_⟩
        intro _
        refine ⟨r, List.mem_cons_self _ _, hc, ?_, rfl⟩
        intro z hz _
        rcases List.mem_cons.mp hz with hzr | hzrs
        · exact Or.inl hzr
        · exact Or.inr (hr z hzrs)
      | false =>
        have hscan : scanRules (r :: rs) = scanRules rs := by
          simp [scanRules, hc]
        rw [hscan]
        refine ⟨?_, ihs.2.1, ?_⟩
        · rw [ihs.1]
          constructor
          · rintro ⟨z, hz, hzc⟩
            exact ⟨z, List.mem_cons_of_mem _ hz, hzc⟩
          · rintro ⟨z, hz, hzc⟩
            rcases List.mem_cons.mp hz with hzr | hzrs
            · rw [hzr, hc] at hzc
              exact absurd hzc (by simp)
            · exact ⟨z, hzrs, hzc⟩
        · intro htrue
          rcases ihs.2.2 htrue with ⟨f, hf, hfc, hmin, htr⟩
          refine ⟨f, List.mem_cons_of_mem _ hf, hfc, ?_, htr⟩
          intro z hz hzc
          rcases List.mem_cons.mp hz with hzr | hzrs
          · rw [hzr, hc] at hzc
            exact absurd hzc (by simp)
          · exact hmin z hzrs hzc
    · have hscan : scanRules (r :: rs) = scanRules rs := by
        simp [scanRules, hc]
      rw [hscan]
      refine ⟨?_, ihs.2.1, ?_⟩
      · rw [ihs.1]
        constructor
        · rintro ⟨z, hz, hzc⟩
          exact ⟨z, List.mem_cons_of_mem _ hz, hzc⟩
        · rintro ⟨z, hz, hzc⟩
          rcases List.mem_cons.mp hz with hzr | hzrs
          · rw [hzr, hc] at hzc
            exact absurd hzc (by simp)
          · exact ⟨z, hzrs, hzc⟩
      · intro htrue
        rcases ihs.2.2 htrue with ⟨f, hf, hfc, hmin, htr⟩
        refine ⟨f, List.mem_cons_of_mem _ hf, hfc, ?_, htr⟩
        intro z hz hzc
        rcases List.mem_cons.mp hz with hzr | hzrs
        · rw [hzr, hc] at hzc
          exact absurd hzc (by simp)
        · exact hmin z hzrs hzc

/-- C1: For every rule list whose conditions and actions do not raise (ids
pairwise increasing, as `add_rule` assigns them), `RuleBasedAI.update`
evaluates rules in descending priority order with ties kept in insertion
order: it returns true iff some rule's condition is true, executes no action
when it returns false, executes at most one action per call, and when it
returns true the single executed action belongs to a satisfied rule that
precedes (`evalBefore`: higher priority, or equal priority and earlier
insertion) every other satisfied rule. -/
theorem c1_rule_update (rules : List Rule)
    (hids : rules.Pairwise fun a b => a.id < b.id)
    (_hC : ∀ r ∈ rules, r.cond ≠ .err)
    (hA : ∀ r ∈ rules, r.actRaises = false) :
    ((updateRules rules).1 = true ↔ ∃ r ∈ rules, r.cond = .ok true) ∧
    ((updateRules rules).1 = false → (updateRules rules).2 = []) ∧
    (updateRules rules).2.length ≤ 1 ∧
    ((updateRules rules).1 = true →
      ∃ f ∈ rules, f.cond = .ok true ∧
        (∀ r ∈ rules, r.cond = .ok true → r = f ∨ evalBefore f r) ∧
        (updateRules rules).2 = [f.act]) := by
  have hperm := sortRulesDesc_perm rules
  have hp := sortRulesDesc_pairwise hids
  have hA' : ∀ r ∈ sortRulesDesc rules, r.actRaises = false :=
    fun r hr => hA r (hperm.subset hr)
  obtain ⟨h1, h2, h3⟩ := scanRules_spec (sortRulesDesc rules) hp hA'
  have hupd : updateRules rules = scanRules (sortRulesDesc rules) := rfl
  rw [hupd]
  have hmem : ∀ z : Rule, z ∈ sortRulesDesc rules ↔ z ∈ rules := fun z => hperm.mem_iff
  refine ⟨?_, h2, ?_, ?_⟩
  · rw [h1]
    constructor
    · rintro ⟨z, hz, hzc⟩
      exact ⟨z, (hmem z).mp hz, hzc⟩
    · rintro ⟨z, hz, hzc⟩
      exact ⟨z, (hmem z).mpr hz, hzc⟩
  · rcases hb : (scanRules (sortRulesDesc rules)).1 with _ | _
    · rw [h2 hb]
      simp
    · rcases h3 hb with ⟨f, _, _, _, htr⟩
      rw [htr]
      simp
  · intro htrue
    rcases h3 htrue with ⟨f, hf, hfc, hmin, htr⟩
    exact ⟨f, (hmem f).mp hf, hfc,
      fun z hz hzc => hmin z ((hmem z).mpr hz) hzc, htr⟩

/-- Witness for C1: the three-rule list evaluates to a fired action with a
satisfied rule existing, the trace has at most one action, and concretely
rule 1 (priority 10, inserted before the tying rule 2) fires action 4. -/
theorem c1_rule_update_witness :
    ((updateRules demoRules).1 = true ↔ ∃ r ∈ demoRules, r.cond = .ok true) ∧
    (updateRules demoRules).2.length ≤ 1 ∧
    updateRules demoRules = (true, [4]) :=
  ⟨(c1_rule_update demoRules (by decide) (by decide) (by decide)).1,
   (c1_rule_update demoRules (by decide) (by decide) (by decide)).2.2.1,
   by decide⟩

/-- C4: node semantics of `BehaviorTree._execute_node`: a Sequence returns
true iff all children return true and short-circuits on the first false
child (later children, hence their actions, never run); a Selector returns
true iff some child returns true and short-circuits on the first true child;
a Condition returns its predicate's result, false when the predicate is
unset; an Action invokes its effect (no-op when unset) and returns true. -/
theorem c4_tree_nodes :
    (∀ cs : List BTNode, (execSeq cs).1 = cs.all (fun c => (execNode c).1)) ∧
    (∀ cs : List BTNode, (execSel cs).1 = cs.any (fun c => (execNode c).1)) ∧
    (∀ (cs1 : List BTNode) (c : BTNode) (cs2 : List BTNode),
      (∀ x ∈ cs1, (execNode x).1 = true) → (execNode c).1 = false →
      execSeq (cs1 ++ c :: cs2) = (false, (execSeq cs1).2 ++ (execNode c).2)) ∧
    (∀ (cs1 : List BTNode) (c : BTNode) (cs2 : List BTNode),
      (∀ x ∈ cs1, (execNode x).1 = false) → (execNode c).1 = true →
      execSel (cs1 ++ c :: cs2) = (true, (execSel cs1).2 ++ (execNode c).2)) ∧
    (∀ b, execNode (.condition (some (.ok b))) = (b, [])) ∧
    (execNode (.condition none) = (false, [])) ∧
    (∀ i, execNode (.action (some (i, false))) = (true, [i])) ∧
    (execNode (.action none) = (true, [])) := by
  refine ⟨?_, ?_, ?_, ?_, ?_, rfl, ?_, rfl⟩
  · intro cs
    induction cs with
    | nil => rfl
    | cons c cs ih =>
      simp only [execSeq, List.all_cons]
      rcases hb : (execNode c).1 with _ | _
      · simp [hb]
      · simp [hb, ih]
  · intro cs
    induction cs with
    | nil => rfl
    | cons c cs ih =>
      simp only [execSel, List.any_cons]
      rcases hb : (execNode c).1 with _ | _
      · simp [hb, ih]
      · simp [hb]
  · intro cs1 c cs2 hall hc
    induction cs1 with
    | nil =>
      simp only [List.nil_append, execSeq, hc]
      simp
    | cons x xs ih =>
      have hx : (execNode x).1 = true := hall x (List.mem_cons_self _ _)
      have ih' := ih (fun z hz => hall z (List.mem_cons_of_mem _ hz))
      simp only [List.cons_append, execSeq, hx, if_true, ih']
      simp only [execSeq, hx, if_true, Prod.mk.injEq, List.append_assoc, List.append_cancel_left_eq]
      exact ⟨by rw [List.append_eq, ih'], by rw [List.append_eq, ih']⟩
  · intro cs1 c cs2 hall hc
    induction cs1 with
    | nil =>
      simp only [List.nil_append, execSel, hc]
      simp
    | cons x xs ih =>
      have hx : (execNode x).1 = false := hall x (List.mem_cons_self _ _)
      have ih' := ih (fun z hz => hall z (List.mem_cons_of_mem _ hz))
      simp only [List.cons_append, execSel, hx, ih']
      simp only [execSel, hx, Bool.false_eq_true, if_false, Prod.mk.injEq, List.append_assoc,
        List.append_cancel_left_eq]
      exact ⟨by rw [List.append_eq, ih'], by rw [List.append_eq, ih']⟩
  · intro b; cases b <;> rfl
  · intro i; rfl

/-- Witness for C4: the spec's own example, a Sequence over children
[condition true, condition true, condition false, action 9]: the walk
returns false and the fourth child's action label 9 never appears in the
trace. -/
theorem c4_tree_nodes_witness :
    execSeq [BTNode.condition (some (.ok true)), BTNode.condition (some (.ok true)),
      BTNode.condition (some (.ok false)), BTNode.action (some (9, false))] = (false, []) := by
  have h := c4_tree_nodes.2.2.1
    [BTNode.condition (some (.ok true)), BTNode.condition (some (.ok true))]
    (BTNode.condition (some (.ok false)))
    [BTNode.action (some (9, false))]
    (by decide) (by decide)
  simpa using h

theorem scanRules_all_err :
    ∀ l : List Rule, (∀ r ∈ l, r.cond = .err) → scanRules l = (false, []) := by
  intro l
  induction l with
  | nil => intro _; rfl
  | cons r rs ih =>
    intro h
    have hr : r.cond = .err := h r (List.mem_cons_self _ _)
    simp [scanRules, hr, ih (fun z hz => h z (List.mem_cons_of_mem _ hz))]

/-- C5: an error raised by a rule condition/action or by a tree node's
closure is absorbed at that rule / that node: a rule set whose conditions
all raise yields `update = False` with no action executed; the scan skips a
rule whose condition raises and keeps scanning after a rule whose action
raises (treating it as not having succeeded); a Condition node whose
predicate raises reports false, an Action node whose effect raises reports
false, and a Selector keeps evaluating the following siblings of any child
that reports false.  No exception escapes: `updateRules`/`execNode` are
total functions into `Bool × List ℕ`. -/
theorem c5_error_containment :
    (∀ rules : List Rule, (∀ r ∈ rules, r.cond = .err) → updateRules rules = (false, [])) ∧
    (∀ (r : Rule) (rs : List Rule), r.cond = .err → scanRules (r :: rs) = scanRules rs) ∧
    (∀ (r : Rule) (rs : List Rule), r.cond = .ok true → r.actRaises = true →
      scanRules (r :: rs) = ((scanRules rs).1, r.act :: (scanRules rs).2)) ∧
    (execNode (.condition (some .err)) = (false, [])) ∧
    (∀ i, execNode (.action (some (i, true))) = (false, [i])) ∧
    (∀ (c : BTNode) (cs : List BTNode), (execNode c).1 = false →
      execSel (c :: cs) = ((execSel cs).1, (execNode c).2 ++ (execSel cs).2)) := by
  refine ⟨?_, ?_, ?_, rfl, fun i => rfl, ?_⟩
  · intro rules h
    have h' : ∀ r ∈ sortRulesDesc rules, r.cond = .err :=
      fun r hr => h r ((sortRulesDesc_perm rules).subset hr)
    exact scanRules_all_err (sortRulesDesc rules) h'
  · intro r rs hr
    simp [scanRules, hr]
  · intro r rs hc hra
    simp [scanRules, hc, hra]
  · intro c cs hc
    simp [execSel, hc]

/-- Witness for C5: the two-rule list whose conditions both raise yields
`(False, no action)`, and a Selector continues past a child whose condition
closure raised. -/
theorem c5_error_containment_witness :
    updateRules demoErrRules = (false, []) ∧
    execSel [BTNode.condition (some .err), BTNode.action (some (7, false))] =
      ((execSel [BTNode.action (some (7, false))]).1,
        (execNode (BTNode.condition (some .err))).2 ++
          (execSel [BTNode.action (some (7, false))]).2) :=
  ⟨c5_error_containment.1 demoErrRules (by decide),
   c5_error_containment.2.2.2.2.2 (BTNode.condition (some .err))
     [BTNode.action (some (7, false))] (by decide)⟩

/-- C6: for the default configurations and the same outcome `see` of the
shared perception query `can_see_player(range=200)`, the default rule list
and the default patrol-and-chase tree return the same boolean (always true)
and invoke the same single agent operation: chase when the player is
perceived, patrol otherwise. -/
theorem c6_default_equivalence (see : Bool) :
    updateRules (defaultRules see) = treeExecute (some (defaultTree see)) ∧
    updateRules (defaultRules see) = (true, [if see then chaseActId else patrolActId]) := by
  cases see <;> exact ⟨by decide, by decide⟩

/-- C7: each learning-strategy experience append adds exactly one record;
reaching 10 records triggers exactly one training pass and clears the
accumulator, so starting from at most 9 records the accumulator ends with at
most 9 (in particular it never exceeds 10); `train` on an empty accumulator
is a silent no-op that changes nothing, the network parameters included. -/
theorem c7_buffer_mechanics (ml : MLState) (r : ExpRecord) :
    (ml.buffer = [] → train ml = ml) ∧
    (rememberExperience ml r).buffer =
      (if 10 ≤ ml.buffer.length + 1 then [] else ml.buffer ++ [r]) ∧
    (rememberExperience ml r).sessions =
      (if 10 ≤ ml.buffer.length + 1 then ml.sessions + 1 else ml.sessions) ∧
    (rememberExperience ml r).net =
      (if 10 ≤ ml.buffer.length + 1 then (train { ml with buffer := ml.buffer ++ [r] }).net
       else ml.net) ∧
    (ml.buffer.length ≤ 9 → (rememberExperience ml r).buffer.length ≤ 9) := by
  have hne : (ml.buffer ++ [r]).isEmpty = false := by
    rcases ml.buffer with _ | ⟨a, as⟩ <;> rfl
  refine ⟨?_, ?_, ?_, ?_, ?_⟩
  · intro h
    simp [train, h]
  · simp only [rememberExperience, List.length_append, List.length_cons, List.length_nil,
      Nat.zero_add]
    split <;> rfl
  · simp only [rememberExperience, List.length_append, List.length_cons, List.length_nil,
      Nat.zero_add]
    split
    · simp [train, hne]
    · rfl
  · simp only [rememberExperience, List.length_append, List.length_cons, List.length_nil,
      Nat.zero_add]
    split <;> rfl
  · intro hlen
    simp only [rememberExperience, List.length_append, List.length_cons, List.length_nil,
      Nat.zero_add]
    split
    · simp
    · simp only [List.length_append, List.length_cons, List.length_nil, Nat.zero_add]
      omega

/-- Witness for C7: from an empty accumulator, one append stores exactly the
one record, runs no training pass, and a direct `train` call is an identity. -/
theorem c7_buffer_mechanics_witness :
    train mlDemo = mlDemo ∧
    (rememberExperience mlDemo recDemo).buffer = [recDemo] ∧
    (rememberExperience mlDemo recDemo).sessions = 0 :=
  ⟨(c7_buffer_mechanics mlDemo recDemo).1 rfl,
   by simpa [mlDemo] using (c7_buffer_mechanics mlDemo recDemo).2.1,
   by simpa [mlDemo] using (c7_buffer_mechanics mlDemo recDemo).2.2.1⟩

/-- Counterexample to C2 as stated: two target matrices that credit
different output units (unit 0 with reward `1.0` versus unit 3 with reward
`-0.1`) produce identical parameter updates in `backward`, so the target
matrix does not even influence which output unit accumulates gradient. -/
theorem c2_counterexample :
    target1Demo ≠ target2Demo ∧
    backward net0 xDemo target1Demo outDemo a1Demo =
      backward net0 xDemo target2Demo outDemo a1Demo := by
  constructor
  · intro h
    have h0 := congrFun (congrFun h 0) 0
    norm_num [target1Demo, target2Demo] at h0
  · rfl

/-- C2 (amended): the output-layer error of `backward` is
`output * (1 - output)` rather than `(target - output)`, and the target
matrix argument influences nothing at all: `backward` is independent of it
in every component of the update. -/
theorem c2_backward_ignores_target {m ni nh no : ℕ} (net : Net ni nh no)
    (x : Matrix (Fin m) (Fin ni) ℝ) (y y' output : Matrix (Fin m) (Fin no) ℝ)
    (a1 : Matrix (Fin m) (Fin nh) ℝ) :
    backward net x y output a1 = backward net x y' output a1 ∧
    (backward net x y output a1).w2 =
      (fun k j => net.w2 k j -
        learningRate * ((∑ i, a1 i k * (output i j * (1 - output i j))) / m)) ∧
    (backward net x y output a1).b2 =
      (fun j => net.b2 j - learningRate * ((∑ i, output i j * (1 - output i j)) / m)) :=
  ⟨rfl, rfl, rfl⟩

theorem sigmoid_lt_sigmoid {a b : ℝ} (h : a < b) : sigmoid a < sigmoid b := by
  unfold sigmoid
  have h1 : (0 : ℝ) < 1 + Real.exp (-b) := by positivity
  have h2 : 1 + Real.exp (-b) < 1 + Real.exp (-a) := by
    have := Real.exp_lt_exp.mpr (neg_lt_neg h)
    linarith
  exact one_div_lt_one_div_of_lt h1 h2

theorem outputsList_net0 (s : Fin 6 → ℝ) :
    outputsList net0 s = [sigmoid 0, sigmoid 0, sigmoid 1, sigmoid 0] := by
  have hz : ∀ (a1 : Matrix (Fin 1) (Fin 8) ℝ) (j : Fin 4),
      forwardZ2 net0 a1 0 j = net0.b2 j := by
    intro a1 j
    simp [forwardZ2, net0]
  have hout : ∀ (j : Fin 4),
      forwardOut net0 (fun (_ : Fin 1) k => s k) 0 j = sigmoid (net0.b2 j) := by
    intro j
    simp only [forwardOut]
    rw [hz]
  have hrange : List.finRange 4 = [0, 1, 2, 3] := rfl
  simp only [outputsList, hrange, List.map_cons, List.map_nil, hout]
  norm_num [net0]

theorem chooseAction_demo : chooseAction net0 enemyDemo playerDemo = 2 := by
  have h01 : sigmoid 0 < sigmoid 1 := sigmoid_lt_sigmoid (by norm_num)
  unfold chooseAction
  rw [outputsList_net0]
  show npArgmaxGo 0 (sigmoid 0) 1 [sigmoid 0, sigmoid 1, sigmoid 0] = 2
  rw [npArgmaxGo_cons, if_neg (lt_irrefl _), npArgmaxGo_cons, if_pos h01,
    npArgmaxGo_cons, if_neg (not_lt.mpr h01.le)]
  rfl

/-- Counterexample to C3 as stated: a concrete call of
`MachineLearningAI.update` (zero weights, output bias favouring the jump
action, enemy on the ground) appends a record whose `state` field is NOT the
pre-action feature vector: the jump flipped the on-ground feature before
`get_state` was re-evaluated for storage. -/
theorem c3_counterexample :
    (mlUpdate mlDemo enemyDemo playerDemo).1.buffer.map ExpRecord.state ≠
      [getState enemyDemo playerDemo] := by
  have hbuf : (mlUpdate mlDemo enemyDemo playerDemo).1.buffer
      = [mlRecord net0 enemyDemo playerDemo] := by
    show (rememberExperience mlDemo (mlRecord mlDemo.net enemyDemo playerDemo)).buffer
      = [mlRecord net0 enemyDemo playerDemo]
    simp [rememberExperience, mlDemo]
  rw [hbuf]
  simp only [List.map_cons, List.map_nil]
  intro h
  have h1 : (mlRecord net0 enemyDemo playerDemo).state = getState enemyDemo playerDemo := by
    injection h
  have hpost : mlPostEnemy net0 enemyDemo playerDemo = jump enemyDemo := by
    unfold mlPostEnemy
    rw [chooseAction_demo]
    rfl
  have hstate : (mlRecord net0 enemyDemo playerDemo).state
      = getState (jump enemyDemo) playerDemo := by
    show getState (mlPostEnemy net0 enemyDemo playerDemo) playerDemo = _
    rw [hpost]
  rw [hstate] at h1
  have h3 := congrFun h1 3
  have hL : getState (jump enemyDemo) playerDemo 3 = 0 := rfl
  have hR : getState enemyDemo playerDemo 3 = 1 := rfl
  rw [hL, hR] at h3
  exact absurd h3 (by norm_num)

/-- C3 (amended): every `MachineLearningAI.update` call appends exactly one
experience record whose `state` field is the post-action feature vector
(recomputed after the action executed, hence equal to `next_state` and in
general different from the pre-action vector), whose reward is `+1.0` iff
the post-action horizontal distance to the player is below 100 and `-0.1`
otherwise, and whose terminal flag is false; the training pass
forward-passes exactly these stored states. -/
theorem c3_experience_record (ml : MLState) (e : Enemy) (p : Player) :
    (mlRecord ml.net e p).state = getState (mlPostEnemy ml.net e p) p ∧
    (mlRecord ml.net e p).nextState = (mlRecord ml.net e p).state ∧
    (mlRecord ml.net e p).done = false ∧
    (mlRecord ml.net e p).reward =
      (if |(mlPostEnemy ml.net e p).x - p.x| < 100 then 1 else -0.1) ∧
    (mlRecord ml.net e p).action = chooseAction ml.net e p ∧
    (mlUpdate ml e p).1 = rememberExperience ml (mlRecord ml.net e p) ∧
    (ml.buffer ≠ [] →
      (train ml).net =
        backward ml.net (statesMatrix ml.buffer)
          (targetMatrix ml.buffer (forwardOut ml.net (statesMatrix ml.buffer)))
          (forwardOut ml.net (statesMatrix ml.buffer))
          (forwardA1 ml.net (statesMatrix ml.buffer))) := by
  refine ⟨rfl, rfl, rfl, rfl, rfl, rfl, ?_⟩
  intro h
  have hne : ml.buffer.isEmpty = false := by
    rcases hb : ml.buffer with _ | ⟨a, as⟩
    · exact absurd hb h
    · rfl
  simp [train, hne]

/-- Witness for C3 (amended): on the concrete one-record state the terminal
flag is false and the training pass's network update is the backward pass on
the stored state batch. -/
theorem c3_experience_record_witness :
    (mlRecord mlDemo.net enemyDemo playerDemo).done = false ∧
    (train mlDemo1).net =
      backward mlDemo1.net (statesMatrix mlDemo1.buffer)
        (targetMatrix mlDemo1.buffer (forwardOut mlDemo1.net (statesMatrix mlDemo1.buffer)))
        (forwardOut mlDemo1.net (statesMatrix mlDemo1.buffer))
        (forwardA1 mlDemo1.net (statesMatrix mlDemo1.buffer)) :=
  ⟨(c3_experience_record mlDemo enemyDemo playerDemo).2.2.1,
   (c3_experience_record mlDemo1 enemyDemo playerDemo).2.2.2.2.2.2 (by simp [mlDemo1])⟩

theorem npArgmaxGo_lt (l : List ℝ) :
    ∀ (bi : ℕ) (bv : ℝ) (i : ℕ), bi < i → npArgmaxGo bi bv i l < i + l.length := by
  induction l with
  | nil =>
    intro bi bv i h
    simpa [npArgmaxGo] using h
  | cons v vs ih =>
    intro bi bv i h
    rw [npArgmaxGo_cons]
    split
    · have := ih i v (i + 1) (Nat.lt_succ_self i)
      simp only [List.length_cons]
      omega
    · have := ih bi bv (i + 1) (Nat.lt_succ_of_lt h)
      simp only [List.length_cons]
      omega

theorem npArgmax_lt (v : ℝ) (vs : List ℝ) : npArgmax (v :: vs) < (v :: vs).length := by
  have h := npArgmaxGo_lt vs 0 v 1 Nat.one_pos
  simp only [npArgmax, List.length_cons]
  omega

theorem chooseAction_lt (net : Net 6 8 4) (e : Enemy) (p : Player) :
    chooseAction net e p < 4 := by
  unfold chooseAction outputsList
  have hrange : List.finRange 4 = [0, 1, 2, 3] := rfl
  rw [hrange]
  simp only [List.map_cons, List.map_nil]
  simpa using npArgmax_lt _ _

/-- C8: `MachineLearningAI.update` always returns true; the chosen action is
the greedy argmax (first index of the maximal output activation) over the
network's four outputs, it is one of 0=patrol, 1=chase, 2=jump, 3=attack,
and exactly that one action is performed on the agent. -/
theorem c8_ml_always_acts (ml : MLState) (e : Enemy) (p : Player) :
    (mlUpdate ml e p).2.2.2 = true ∧
    chooseAction ml.net e p = npArgmax (outputsList ml.net (getState e p)) ∧
    chooseAction ml.net e p < 4 ∧
    (mlUpdate ml e p).2.2.1 = [chooseAction ml.net e p] ∧
    (mlUpdate ml e p).2.1 = (executeAction e (chooseAction ml.net e p)).1 := by
  refine ⟨rfl, rfl, chooseAction_lt ml.net e p, ?_, rfl⟩
  show (executeAction e (chooseAction ml.net e p)).2 = [chooseAction ml.net e p]
  have h4 := chooseAction_lt ml.net e p
  revert h4
  generalize chooseAction ml.net e p = a
  intro h4
  interval_cases a <;> rfl

/-- C9: `AIEngine.set_ai_type` mutates only the active tag; `AIEngine.update`
forwards to the strategy selected by the tag and returns its result, leaving
the other strategies' internal state (rule list, tree, ML state) unchanged;
the scripted tag forwards to the rule-based strategy; a value that is not an
`AIType` member makes `update` a no-op returning false. -/
theorem c9_dispatcher (st : EngineState) (e : Enemy) (p : Player) (t : PyTag) :
    (setAIType st t).tag = t ∧
    (setAIType st t).rules = st.rules ∧
    (setAIType st t).root = st.root ∧
    (setAIType st t).ml = st.ml ∧
    engineUpdate (setAIType st (.known .RULE_BASED)) e p =
      ((updateRules st.rules).1, setAIType st (.known .RULE_BASED), e,
        (updateRules st.rules).2) ∧
    engineUpdate (setAIType st (.known .BEHAVIOR_TREE)) e p =
      ((treeExecute st.root).1, setAIType st (.known .BEHAVIOR_TREE), e,
        (treeExecute st.root).2) ∧
    engineUpdate (setAIType st (.known .MACHINE_LEARNING)) e p =
      ((mlUpdate st.ml e p).2.2.2,
        { setAIType st (.known .MACHINE_LEARNING) with ml := (mlUpdate st.ml e p).1 },
        (mlUpdate st.ml e p).2.1, (mlUpdate st.ml e p).2.2.1) ∧
    engineUpdate (setAIType st (.known .SCRIPTED)) e p =
      ((updateRules st.rules).1, setAIType st (.known .SCRIPTED), e,
        (updateRules st.rules).2) ∧
    engineUpdate (setAIType st .other) e p = (false, setAIType st .other, e, []) :=
  ⟨rfl, rfl, rfl, rfl, rfl, rfl, rfl, rfl, rfl⟩

/-- C10: an enemy on which no player reference has ever been cached cannot
see the player at any range, its `chase_mode` is a no-op (the whole state,
velocities included, is unchanged), and consequently both default strategies
return true having invoked patrol, not chase. -/
theorem c10_no_cached_player (e : Enemy) (h : e.lastPlayer = none) :
    (∀ range : ℝ, canSeePlayer e range = false) ∧
    chaseMode e = e ∧
    updateRules (defaultRules (canSeePlayer e 200)) = (true, [patrolActId]) ∧
    treeExecute (some (defaultTree (canSeePlayer e 200))) = (true, [patrolActId]) := by
  have hsee : ∀ range : ℝ, canSeePlayer e range = false := by
    intro range
    unfold canSeePlayer
    rw [h]
  refine ⟨hsee, ?_, ?_, ?_⟩
  · unfold chaseMode
    rw [h]
  · rw [hsee 200]
    decide
  · rw [hsee 200]
    decide

/-- Witness for C10: the concrete enemy with no cached player reference. -/
theorem c10_no_cached_player_witness :
    canSeePlayer enemyNP 200 = false ∧
    chaseMode enemyNP = enemyNP ∧
    updateRules (defaultRules (canSeePlayer enemyNP 200)) = (true, [patrolActId]) :=
  ⟨(c10_no_cached_player enemyNP rfl).1 200,
   (c10_no_cached_player enemyNP rfl).2.1,
   (c10_no_cached_player enemyNP rfl).2.2.1⟩

/-- Witness for C2 (amended): the two concrete targets from the
counterexample input produce the same `backward` result. -/
theorem c2_backward_ignores_target_witness :
    backward net0 xDemo target1Demo outDemo a1Demo =
      backward net0 xDemo target2Demo outDemo a1Demo :=
  (c2_backward_ignores_target net0 xDemo target1Demo target2Demo outDemo a1Demo).1

/-- Witness for C6: with the player perceived, both default strategies
return true and invoke exactly the chase operation. -/
theorem c6_default_equivalence_witness :
    updateRules (defaultRules true) = treeExecute (some (defaultTree true)) ∧
    updateRules (defaultRules true) = (true, [chaseActId]) :=
  ⟨(c6_default_equivalence true).1, by simpa using (c6_default_equivalence true).2⟩

/-- Witness for C8: a concrete update returns true and picks an action
among the four. -/
theorem c8_ml_always_acts_witness :
    (mlUpdate mlDemo enemyDemo playerDemo).2.2.2 = true ∧
    chooseAction mlDemo.net enemyDemo playerDemo < 4 ∧
    (mlUpdate mlDemo enemyDemo playerDemo).2.2.1 =
      [chooseAction mlDemo.net enemyDemo playerDemo] :=
  ⟨(c8_ml_always_acts mlDemo enemyDemo playerDemo).1,
   (c8_ml_always_acts mlDemo enemyDemo playerDemo).2.2.1,
   (c8_ml_always_acts mlDemo enemyDemo playerDemo).2.2.2.1⟩

/-- Witness for C9: on a concrete dispatcher state, the rule-based tag
forwards to the rule strategy leaving the state unchanged, and a non-enum
tag is a no-op returning false. -/
theorem c9_dispatcher_witness :
    engineUpdate (setAIType engineDemo (.known .RULE_BASED)) enemyDemo playerDemo =
      ((updateRules engineDemo.rules).1, setAIType engineDemo (.known .RULE_BASED),
        enemyDemo, (updateRules engineDemo.rules).2) ∧
    engineUpdate (setAIType engineDemo .other) enemyDemo playerDemo =
      (false, setAIType engineDemo .other, enemyDemo, []) :=
  ⟨(c9_dispatcher engineDemo enemyDemo playerDemo (.known .RULE_BASED)).2.2.2.2.1,
   (c9_dispatcher engineDemo enemyDemo playerDemo (.known .RULE_BASED)).2.2.2.2.2.2.2.2⟩
